import Mathlib

/-!
# BlunderFixer drill-mining engine: verified shallow embedding

This file embeds, in Lean 4, the core algorithms of the blunderfixer-api
drill-mining engine and proves/refutes the specification claims about them:

* the phase classifier `classify_phase` (duplicated in `app/routes/drills.py`
  and `app/services/drills_service.py`),
* the winning-move classifier `unified_winning_logic` (`app/worker.py`),
* the drill miner `shallow_drills_for_hero` (`app/worker.py`),
* the clock parser `extract_time_used` (`app/utils/time_parser.py`),
* the theme tagger `detect_themes` (`app/utils/drill_themes.py`).

Python exceptions are modelled with `Except String`, Python `None` with
`Option`, centipawn integers with `Int`, and clock seconds with `ℚ`
(all clock arithmetic in the source is exact decimal arithmetic on values
rounded to one decimal place).  Chess-library primitives (python-chess:
board representation, FEN parsing, attack sets, legal-move generation,
SAN parsing) are modelled explicitly so that the theme tagger can be run
on concrete positions.
-/

namespace BlunderFixer

/-- A chess side (python-chess `chess.WHITE` / `chess.BLACK`;
the worker encodes it as the strings `"w"` / `"b"`). -/
inductive Side where
  | white
  | black
deriving DecidableEq, Repr

/-- The opposite side (python-chess `not color`). -/
def Side.other : Side → Side
  | .white => .black
  | .black => .white

instance {ε α : Type} [DecidableEq ε] [DecidableEq α] :
    DecidableEq (Except ε α) := fun a b =>
  match a, b with
  | .ok x, .ok y =>
    if h : x = y then .isTrue (by rw [h]) else .isFalse (by simp [h])
  | .error x, .error y =>
    if h : x = y then .isTrue (by rw [h]) else .isFalse (by simp [h])
  | .ok _, .error _ => .isFalse (by simp)
  | .error _, .ok _ => .isFalse (by simp)

/-- `app/worker.py` config constant: centipawns to flag a drill loss. -/
def SWING_THRESHOLD : Int := 100

/-- `app/worker.py` config constant: cp difference from best that still counts
as winning. -/
def WINNING_MOVE_TOLERANCE : Int := 50

/-- A Stockfish score for one line, as read out of an `info` dict through
`score_obj.pov(chess.WHITE)`: either a mate distance, a centipawn value, or
neither (the defensive `else` branch of `get_cp`). -/
inductive Score where
  | mate (n : Int)
  | cp (n : Int)
  | unknown
deriving DecidableEq, Repr

/-- `app/worker.py` `get_cp`: extract the centipawn or mate score, normalised
to White's POV; a mate in `n` maps to `±(10000 − |n|)`, an absent score to 0. -/
def get_cp : Score → Int
  | .mate n => if n > 0 then 10000 - |n| else -(10000 - |n|)
  | .cp n => n
  | .unknown => 0

/-- One multipv line of an evaluator response: its score and its principal
variation, already converted to SAN (the source converts the PV to SAN via the
rules oracle; the SAN strings are carried as data here). -/
structure PvInfo where
  score : Score
  pv : List String
deriving DecidableEq, Repr

/-- Hero-signed centipawns (`signed_cp = raw_cp if hero_side == "w" else
-raw_cp` in `unified_winning_logic`). -/
def signedCp (heroSide : Side) (raw : Int) : Int :=
  if heroSide = .white then raw else -raw

/-- The `for idx ... if diff <= WINNING_MOVE_TOLERANCE: ... else: break` loop
of `unified_winning_logic`, walking score/line pairs in rank order and
stopping at the first line outside tolerance. -/
def winningLoop (best : Int) : List (Int × List String) → List String × List (List String)
  | [] => ([], [])
  | (cpHero, line) :: rest =>
    if best - cpHero ≤ WINNING_MOVE_TOLERANCE then
      let (ms, ls) := winningLoop best rest
      (line.headD "" :: ms, line :: ls)
    else
      ([], [])

/-- `app/worker.py` `unified_winning_logic`: convert each PV line's score to
the hero's POV, then collect every line within `WINNING_MOVE_TOLERANCE` of the
first (best) line, stopping at the first failure; returns
`(has_one_winning_move, winning_moves, winning_lines)`. -/
def unified_winning_logic (heroSide : Side) (analysis : List PvInfo) :
    Bool × List String × List (List String) :=
  let heroCpList := analysis.map (fun info => signedCp heroSide (get_cp info.score))
  let allLines := analysis.map (·.pv)
  match heroCpList with
  | [] => (false, [], [])
  | best :: _ =>
    let (movesWithin, linesWithin) := winningLoop best (heroCpList.zip allLines)
    (movesWithin.length = 1, movesWithin, linesWithin)

/-! ## Phase classifier

`classify_phase` exists twice, with identical bodies: once in
`app/routes/drills.py` and once in `app/services/drills_service.py`.
Both are embedded, in their own namespaces. `ply` is a non-negative
machine integer ≥ 0 (per the data model), so `math.ceil(ply / 2)` is
`(ply + 1) / 2` in natural-number arithmetic. -/

namespace Routes

/-- `app/routes/drills.py` `classify_phase`: return one of
`opening | middle | late | endgame` for a given position. -/
def classify_phase (ply : Nat)
    (has_white_queen has_black_queen : Option Bool)
    (white_rook_count black_rook_count : Option Nat)
    (white_minor_count black_minor_count : Option Nat)
    (opening_move_threshold : Nat := 10) : String :=
  let move_no := (ply + 1) / 2
  match has_white_queen, has_black_queen, white_rook_count, black_rook_count,
      white_minor_count, black_minor_count with
  | some wq, some bq, some wr, some br, some wm, some bm =>
    if move_no < opening_move_threshold ∧ (wq ∨ bq) then "opening"
    else
      let white_pts := (if wq then 1 else 0) * 2 + wr + wm
      let black_pts := (if bq then 1 else 0) * 2 + br + bm
      let material := max white_pts black_pts
      if material ≥ 5 then "middle"
      else if material ≥ 3 then "late"
      else "endgame"
  | _, _, _, _, _, _ =>
    if move_no < opening_move_threshold then "opening" else "middle"

end Routes

namespace DrillsService

/-- `app/services/drills_service.py` `classify_phase`: return one of
`opening|middle|late|endgame` for a given position. -/
def classify_phase (ply : Nat)
    (has_white_queen has_black_queen : Option Bool)
    (white_rook_count black_rook_count : Option Nat)
    (white_minor_count black_minor_count : Option Nat)
    (opening_move_threshold : Nat := 10) : String :=
  let move_no := (ply + 1) / 2
  match has_white_queen, has_black_queen, white_rook_count, black_rook_count,
      white_minor_count, black_minor_count with
  | some wq, some bq, some wr, some br, some wm, some bm =>
    if move_no < opening_move_threshold ∧ (wq ∨ bq) then "opening"
    else
      let white_pts := (if wq then 1 else 0) * 2 + wr + wm
      let black_pts := (if bq then 1 else 0) * 2 + br + bm
      let material := max white_pts black_pts
      if material ≥ 5 then "middle"
      else if material ≥ 3 then "late"
      else "endgame"
  | _, _, _, _, _, _ =>
    if move_no < opening_move_threshold then "opening" else "middle"

end DrillsService

/-- The phase classification exactly as the specification words it:
`move_number = ceil(ply/2)`; with missing material, `opening` when
`move_number < opening_threshold` else `middle`; otherwise `opening` when
`move_number < opening_threshold` and at least one queen remains; otherwise,
with per-side score `queens*2 + rooks + minors` and `material` the max of the
two sides, `middle` when `material ≥ 5`, `late` when `material` is 3 or 4,
`endgame` when `material ≤ 2`. -/
def classify_phase_spec (ply : Nat)
    (has_white_queen has_black_queen : Option Bool)
    (white_rook_count black_rook_count : Option Nat)
    (white_minor_count black_minor_count : Option Nat)
    (opening_move_threshold : Nat := 10) : String :=
  let move_number := (ply + 1) / 2
  match has_white_queen, has_black_queen, white_rook_count, black_rook_count,
      white_minor_count, black_minor_count with
  | some wq, some bq, some wr, some br, some wm, some bm =>
    if move_number < opening_move_threshold ∧ (wq ∨ bq) then "opening"
    else
      let material := max ((if wq then 2 else 0) + wr + wm)
        ((if bq then 2 else 0) + br + bm)
      if material ≥ 5 then "middle"
      else if material = 3 ∨ material = 4 then "late"
      else "endgame"
  | _, _, _, _, _, _ =>
    if move_number < opening_move_threshold then "opening" else "middle"

/-! ## Clock/time-used parser (`app/utils/time_parser.py`)

The PGN is embedded at the rules-oracle boundary: `chess.pgn.read_game`
either fails (`Option.none`) or yields the mainline as a list of half-moves.
Each half-move carries the mover (the board's side to move at that node) and
the raw `%clk` reading captured by `CLK_RE` from the move's comment, as exact
seconds (`none` when the comment is absent or the regex does not match).
Clock seconds are rationals: the source's arithmetic is on values rounded to
one decimal, which is exact decimal arithmetic. -/

/-- One mainline half-move as seen by the core: the side to move at its node,
the pre-move board's FEN, the move's SAN, and the raw `%clk` seconds captured
from its comment (`none` = no comment / no regex match). -/
structure HalfMove where
  mover : Side
  fen : String
  san : String
  clkTotal : Option ℚ
deriving DecidableEq, Repr

/-- Rounding to one decimal place, `round(total, 1)` in
`_clock_from_comment`: on every value the theorems below evaluate it at
(multiples of 1/10) all tie-breaking conventions agree. -/
def round1 (q : ℚ) : ℚ := (round (10 * q) : ℤ) / 10

/-- `_clock_from_comment`: the remaining clock parsed from a move's comment,
rounded to one decimal; `none` when the comment is missing or unparseable. -/
def clock_from_comment (c : Option ℚ) : Option ℚ := c.map round1

/-- The `for i in range(ply + 1)` loop of `extract_time_used`: walk the
mainline keeping each side's last-known remaining clock (`last["w"]`,
`last["b"]`), and at the target ply return
`round(max(0, last[mover] + inc - rem), 1)` when both clocks are known,
`None` otherwise.  Running past the end of the mainline returns `None`. -/
def timeLoop (inc : ℚ) (lastW lastB : Option ℚ) :
    List HalfMove → Nat → Option ℚ
  | [], _ => none
  | p :: rest, i =>
    let last := match p.mover with
      | .white => lastW
      | .black => lastB
    let rem := clock_from_comment p.clkTotal
    let spent : Option ℚ := match rem, last with
      | some r, some l => some (max 0 (l + inc - r))
      | _, _ => none
    let lastW' := match rem, p.mover with
      | some r, .white => some r
      | _, _ => lastW
    let lastB' := match rem, p.mover with
      | some r, .black => some r
      | _, _ => lastB
    match i with
    | 0 => spent.map round1
    | i' + 1 => timeLoop inc lastW' lastB' rest i'

/-- `_parse_time_control` output: the parsed `base+increment` time control;
`none` models a missing/empty time-control string (base unknown,
increment 0). -/
def parsedTimeControl (tc : Option (Nat × Nat)) : Option Nat × Nat :=
  match tc with
  | none => (none, 0)
  | some (b, i) => (some b, i)

/-- `app/utils/time_parser.py` `extract_time_used`: seconds spent on the
target ply, or `none` when the PGN does not parse, the mainline ends before
the target ply, or a required clock reading is unknown. -/
def extract_time_used (game : Option (List HalfMove))
    (tc : Option (Nat × Nat)) (ply : Nat) : Option ℚ :=
  match game with
  | none => none
  | some plies =>
    let (base, inc) := parsedTimeControl tc
    timeLoop (inc : ℚ) (base.map (fun b => (b : ℚ)))
      (base.map (fun b => (b : ℚ))) plies ply

/-- The specification's "previous remaining" for mover `m` at some point of
the replay: the last parseable `%clk` reading of a ply of `m` among the plies
already replayed, else the initial value (the base time when known). -/
def lastClock (m : Side) : Option ℚ → List HalfMove → Option ℚ
  | init, [] => init
  | init, p :: rest =>
    lastClock m
      (if p.mover = m ∧ (clock_from_comment p.clkTotal).isSome
        then clock_from_comment p.clkTotal else init) rest

/-! ## Drill miner (`app/worker.py` `shallow_drills_for_hero`)

The evaluator is a process boundary: it is embedded as a fallible function
from a mainline position index to a `Score` (`evalPos i` models
`sf.analyse` on the board reached after `i` half-moves; `.error` models a
raised exception, which Python propagates).  The game is the
`chess.pgn.read_game` result, as for the time parser. -/

/-- One emitted drill candidate: the tuple
`(fen, ply, swing, initial_eval, move_san, time_used)` appended to `drills`
in `shallow_drills_for_hero`. -/
structure Drill where
  fen : String
  ply : Nat
  swing : Int
  initial_eval : Int
  san : String
  time_used : Option ℚ
deriving DecidableEq, Repr

/-- The hero-POV sign: `1 if hero_side == "w" else -1`. -/
def heroSign (heroSide : Side) : Int := if heroSide = .white then 1 else -1

/-- The `while not node.is_end()` scan of `shallow_drills_for_hero`,
parameterised by the swing threshold (the source fixes it to
`SWING_THRESHOLD`).  For a hero ply at index `plyIdx`: evaluate the pre-move
board (`evalPos plyIdx`), evaluate the post-move board
(`evalPos (plyIdx + 1)`), form the hero-signed swing, and when it reaches the
threshold emit the candidate (with the time used on that ply); an evaluator
failure propagates, as an uncaught Python exception does.  Opponent plies are
replayed without evaluation. -/
def drillScan (evalPos : Nat → Except String Score) (heroSide : Side)
    (threshold : Int) (pgnGame : List HalfMove) (tc : Option (Nat × Nat)) :
    List HalfMove → Nat → Except String (List Drill)
  | [], _ => .ok []
  | hm :: rest, plyIdx =>
    if hm.mover = heroSide then do
      let infoBefore ← evalPos plyIdx
      let cp_before := get_cp infoBefore
      let infoAfter ← evalPos (plyIdx + 1)
      let cp_after := get_cp infoAfter
      let delta := (cp_before - cp_after) * heroSign heroSide
      let tail ← drillScan evalPos heroSide threshold pgnGame tc rest (plyIdx + 1)
      if delta ≥ threshold then
        .ok ({ fen := hm.fen, ply := plyIdx, swing := delta,
               initial_eval := cp_before, san := hm.san,
               time_used := extract_time_used (some pgnGame) tc plyIdx } :: tail)
      else
        .ok tail
    else
      drillScan evalPos heroSide threshold pgnGame tc rest (plyIdx + 1)

/-- `app/worker.py` `shallow_drills_for_hero`: scan a game and return the
drill candidates of every hero ply whose hero-signed evaluation swing reaches
`SWING_THRESHOLD`; an unreadable PGN yields the empty list. -/
def shallow_drills_for_hero (evalPos : Nat → Except String Score)
    (game : Option (List HalfMove)) (heroSide : Side)
    (tc : Option (Nat × Nat)) : Except String (List Drill) :=
  match game with
  | none => .ok []
  | some plies => drillScan evalPos heroSide SWING_THRESHOLD plies tc plies 0

/-- The miner's per-ply decision, as the specification words it: at hero ply
`i` with pre-move evaluation `cp_before` and post-move evaluation `cp_after`,
the hero-signed swing is `sign(hero) * (cp_before - cp_after)`, and a
candidate (with `initial_eval = cp_before` and the move's SAN at the pre-move
board) is emitted iff the swing reaches the threshold. -/
def specDrillAt (f : Nat → Score) (heroSide : Side) (threshold : Int)
    (pgnGame : List HalfMove) (tc : Option (Nat × Nat))
    (i : Nat) (hm : HalfMove) : Option Drill :=
  if hm.mover = heroSide then
    let cp_before := get_cp (f i)
    let cp_after := get_cp (f (i + 1))
    let delta := heroSign heroSide * (cp_before - cp_after)
    if delta ≥ threshold then
      some { fen := hm.fen, ply := i, swing := delta,
             initial_eval := cp_before, san := hm.san,
             time_used := extract_time_used (some pgnGame) tc i }
    else none
  else none

/-! ## Rules-oracle model (python-chess board primitives)

`detect_themes` consumes python-chess: board/FEN parsing, attack sets,
pinned-piece detection, SAN parsing against the legal moves, and `push`.
These primitives are modelled here for standard chess, with python-chess's
conventions: squares are `0..63` with `a1 = 0`, `h1 = 7`, `a8 = 56`,
`h8 = 63`; `file = sq % 8`, `rank = sq / 8`. -/

/-- Piece kinds (python-chess `PAWN..KING`). -/
inductive PieceType where
  | pawn
  | knight
  | bishop
  | rook
  | queen
  | king
deriving DecidableEq, Repr

/-- A coloured piece. -/
structure Piece where
  pt : PieceType
  color : Side
deriving DecidableEq, Repr

/-- A move: source and target square, optional promotion piece
(python-chess `Move`). -/
structure Move where
  fromSq : Nat
  toSq : Nat
  promo : Option PieceType
deriving DecidableEq, Repr

/-- A chess position (python-chess `Board`): piece placement as an
association list square ↦ piece (at most one entry per square), side to
move, the four standard castling rights, the en-passant target square, and
the move counters. -/
structure Board where
  pieces : List (Nat × Piece)
  turn : Side
  castleWK : Bool
  castleWQ : Bool
  castleBK : Bool
  castleBQ : Bool
  epSquare : Option Nat
  halfmove : Nat
  fullmove : Nat
deriving DecidableEq, Repr

/-- `board.piece_at(sq)`. -/
def Board.pieceAt (b : Board) (sq : Nat) : Option Piece :=
  (b.pieces.find? (fun e => e.1 == sq)).map (·.2)

/-- The square with file `f` and rank `r` when both are on the board. -/
def mkSq (f r : Int) : Option Nat :=
  if 0 ≤ f ∧ f < 8 ∧ 0 ≤ r ∧ r < 8 then some (r.toNat * 8 + f.toNat) else none

/-- One sliding ray from file/rank `(f, r)` in direction `(df, dr)`,
stopping at (and including) the first occupied square. -/
def rayFrom (b : Board) : Nat → Int → Int → Int → Int → List Nat
  | 0, _, _, _, _ => []
  | fuel + 1, f, r, df, dr =>
    match mkSq (f + df) (r + dr) with
    | none => []
    | some sq =>
      if (b.pieceAt sq).isSome then [sq]
      else sq :: rayFrom b fuel (f + df) (r + dr) df dr

/-- Knight move offsets as `(Δfile, Δrank)`. -/
def knightOffsets : List (Int × Int) :=
  [(1, 2), (2, 1), (2, -1), (1, -2), (-1, -2), (-2, -1), (-2, 1), (-1, 2)]

/-- King move offsets as `(Δfile, Δrank)`. -/
def kingOffsets : List (Int × Int) :=
  [(1, 0), (1, 1), (0, 1), (-1, 1), (-1, 0), (-1, -1), (0, -1), (1, -1)]

/-- Bishop ray directions. -/
def diagDirs : List (Int × Int) := [(1, 1), (1, -1), (-1, 1), (-1, -1)]

/-- Rook ray directions. -/
def orthoDirs : List (Int × Int) := [(1, 0), (-1, 0), (0, 1), (0, -1)]

/-- `board.attacks(sq)`: the squares attacked by the piece on `sq`
(empty when `sq` is empty); pawn attacks are the forward diagonals, slider
attacks stop at and include the first occupied square of either colour. -/
def Board.attacks (b : Board) (sq : Nat) : List Nat :=
  match b.pieceAt sq with
  | none => []
  | some p =>
    let f : Int := (sq : Int) % 8
    let r : Int := (sq : Int) / 8
    match p.pt with
    | .pawn =>
      let dr : Int := if p.color = .white then 1 else -1
      [(-1, dr), (1, dr)].filterMap (fun d => mkSq (f + d.1) (r + d.2))
    | .knight => knightOffsets.filterMap (fun d => mkSq (f + d.1) (r + d.2))
    | .king => kingOffsets.filterMap (fun d => mkSq (f + d.1) (r + d.2))
    | .bishop => diagDirs.flatMap (fun d => rayFrom b 7 f r d.1 d.2)
    | .rook => orthoDirs.flatMap (fun d => rayFrom b 7 f r d.1 d.2)
    | .queen => (diagDirs ++ orthoDirs).flatMap (fun d => rayFrom b 7 f r d.1 d.2)

/-- `board.pieces(piece_type, color)` as an ascending square list. -/
def Board.piecesOf (b : Board) (pt : PieceType) (c : Side) : List Nat :=
  (List.range 64).filter (fun sq => b.pieceAt sq == some ⟨pt, c⟩)

/-- `board.attackers(color, sq)`: squares of `color`'s pieces attacking `sq`. -/
def Board.attackersList (b : Board) (c : Side) (sq : Nat) : List Nat :=
  (List.range 64).filter (fun s =>
    (match b.pieceAt s with
      | some p => p.color = c
      | none => false : Bool) && (b.attacks s).contains sq)

/-- `board.king(color)`: the square of `color`'s king, when present. -/
def Board.kingSq (b : Board) (c : Side) : Option Nat :=
  (List.range 64).find? (fun sq => b.pieceAt sq == some ⟨.king, c⟩)

/-- `board.is_check()`: the side to move's king is attacked. -/
def Board.isCheck (b : Board) : Bool :=
  match b.kingSq b.turn with
  | none => false
  | some k => !(b.attackersList b.turn.other k).isEmpty

/-- The squares strictly between two squares on a shared rank, file or
diagonal (empty otherwise), python-chess `between`. -/
def betweenSquares (a bsq : Nat) : List Nat :=
  let f1 : Int := (a : Int) % 8
  let r1 : Int := (a : Int) / 8
  let f2 : Int := (bsq : Int) % 8
  let r2 : Int := (bsq : Int) / 8
  let df := f2 - f1
  let dr := r2 - r1
  if a = bsq then []
  else if df = 0 ∨ dr = 0 ∨ |df| = |dr| then
    let n := max |df| |dr|
    (List.range (n.toNat - 1)).filterMap (fun i =>
      mkSq (f1 + df.sign * ((i : Int) + 1)) (r1 + dr.sign * ((i : Int) + 1)))
  else []

/-- Whether a slider of kind `pt` moves along the `(a, bsq)` line:
rook-like on ranks/files, bishop-like on diagonals, queens on both. -/
def sliderOnLine (pt : PieceType) (a bsq : Nat) : Bool :=
  let df := ((bsq : Int) % 8) - ((a : Int) % 8)
  let dr := ((bsq : Int) / 8) - ((a : Int) / 8)
  if df = 0 ∨ dr = 0 then pt = .rook ∨ pt = .queen
  else if |df| = |dr| then pt = .bishop ∨ pt = .queen
  else false

/-- `board.is_pinned(color, sq)`: the piece of `color` on `sq` is absolutely
pinned to its king — some enemy slider is aligned with the king through `sq`
and `sq` is the only occupied square strictly between them. -/
def Board.isPinned (b : Board) (c : Side) (sq : Nat) : Bool :=
  match b.kingSq c with
  | none => false
  | some k =>
    (List.range 64).any (fun s =>
      match b.pieceAt s with
      | some p =>
        p.color = c.other && sliderOnLine p.pt k s &&
        (betweenSquares k s).contains sq && (b.pieceAt sq).isSome &&
        (betweenSquares k s).all (fun t => t == sq || (b.pieceAt t).isNone)
      | none => false)

/-- `board.is_en_passant(move)`. -/
def Board.isEnPassant (b : Board) (m : Move) : Bool :=
  b.epSquare == some m.toSq &&
  (match b.pieceAt m.fromSq with
    | some p => p.pt = .pawn
    | none => false : Bool) &&
  ((m.toSq : Int) - (m.fromSq : Int) = 7 ∨ (m.toSq : Int) - (m.fromSq : Int) = -7 ∨
    (m.toSq : Int) - (m.fromSq : Int) = 9 ∨ (m.toSq : Int) - (m.fromSq : Int) = -9 : Bool) &&
  (b.pieceAt m.toSq).isNone

/-- `board.is_capture(move)`: a touched square holds an enemy piece, or the
move is an en-passant capture. -/
def Board.isCapture (b : Board) (m : Move) : Bool :=
  let enemyAt : Nat → Bool := fun sq =>
    match b.pieceAt sq with
    | some p => p.color = b.turn.other
    | none => false
  (if m.fromSq = m.toSq then false else enemyAt m.fromSq || enemyAt m.toSq) ||
    b.isEnPassant m

/-- `board.is_castling(move)`: a king move across more than one file (or onto
an own rook, the Chess960 encoding). -/
def Board.isCastling (b : Board) (m : Move) : Bool :=
  match b.pieceAt m.fromSq with
  | some p =>
    p.pt = .king &&
    ((((m.fromSq : Int) % 8) - ((m.toSq : Int) % 8) > 1 ∨
      ((m.toSq : Int) % 8) - ((m.fromSq : Int) % 8) > 1 : Bool) ||
      (b.pieceAt m.toSq == some ⟨.rook, b.turn⟩))
  | none => false

/-- Remove any piece from a square. -/
def removeAt (pieces : List (Nat × Piece)) (sq : Nat) : List (Nat × Piece) :=
  pieces.filter (fun e => e.1 ≠ sq)

/-- Place a piece on a square, replacing any occupant. -/
def setAt (pieces : List (Nat × Piece)) (sq : Nat) (p : Piece) :
    List (Nat × Piece) :=
  (sq, p) :: removeAt pieces sq

/-- The piece denoted by a FEN character. -/
def pieceOfChar (c : Char) : Option Piece :=
  match c with
  | 'P' => some ⟨.pawn, .white⟩
  | 'N' => some ⟨.knight, .white⟩
  | 'B' => some ⟨.bishop, .white⟩
  | 'R' => some ⟨.rook, .white⟩
  | 'Q' => some ⟨.queen, .white⟩
  | 'K' => some ⟨.king, .white⟩
  | 'p' => some ⟨.pawn, .black⟩
  | 'n' => some ⟨.knight, .black⟩
  | 'b' => some ⟨.bishop, .black⟩
  | 'r' => some ⟨.rook, .black⟩
  | 'q' => some ⟨.queen, .black⟩
  | 'k' => some ⟨.king, .black⟩
  | _ => none

/-- Parse one rank of the FEN board field (`rank` is the 0-based rank the row
describes, `col` the next file to fill); rejects invalid characters, adjacent
digits, and rows not summing to 8 files. -/
def parseFenRow (rank : Nat) : Nat → Bool → List Char →
    Except String (List (Nat × Piece))
  | col, _, [] =>
    if col = 8 then .ok [] else .error "expected 8 columns per row in position part of fen"
  | col, prevDigit, c :: cs =>
    if '1' ≤ c ∧ c ≤ '8' then
      if prevDigit then .error "two subsequent digits in position part of fen"
      else
        let n := c.toNat - '0'.toNat
        if col + n > 8 then .error "expected 8 columns per row in position part of fen"
        else parseFenRow rank (col + n) true cs
    else
      match pieceOfChar c with
      | some p =>
        if col ≥ 8 then .error "expected 8 columns per row in position part of fen"
        else do
          let rest ← parseFenRow rank (col + 1) false cs
          .ok ((rank * 8 + col, p) :: rest)
      | none => .error "invalid character in position part of fen"

/-- Split a character list at every occurrence of a separator, keeping empty
chunks (the helper behind the whitespace split of `fen.split()` and the `/`
split of the board field). -/
def splitOnChar (sep : Char) : List Char → List (List Char)
  | [] => [[]]
  | c :: cs =>
    let rest := splitOnChar sep cs
    if c = sep then [] :: rest
    else
      match rest with
      | [] => [[c]]
      | hd :: tl => (c :: hd) :: tl

/-- Parse a decimal-digit string to a number (`int(...)` on the FEN counter
fields; anything else raises). -/
def digitsToNat : List Char → Option Nat
  | [] => none
  | cs =>
    if cs.all (fun c => '0' ≤ c ∧ c ≤ '9') then
      some (cs.foldl (fun a c => a * 10 + (c.toNat - '0'.toNat)) 0)
    else none

/-- Parse the FEN board field: 8 `/`-separated rows, first row = rank 8. -/
def parseBoardPart (s : List Char) : Except String (List (Nat × Piece)) :=
  let rows := splitOnChar '/' s
  if rows.length ≠ 8 then .error "expected 8 rows in position part of fen"
  else
    (rows.enum.foldlM (fun acc rowIdx => do
      let placed ← parseFenRow (7 - rowIdx.1) 0 false rowIdx.2
      .ok (acc ++ placed)) [])

/-- Parse a square name such as `e3`. -/
def parseSquareName (s : List Char) : Option Nat :=
  match s with
  | [fc, rc] =>
    if 'a' ≤ fc ∧ fc ≤ 'h' ∧ '1' ≤ rc ∧ rc ≤ '8' then
      some ((rc.toNat - '1'.toNat) * 8 + (fc.toNat - 'a'.toNat))
    else none
  | _ => none

/-- python-chess `Board(fen)` / `set_fen`: split on whitespace; the board
field is mandatory, later fields default to `w`, `-`, `-`, `0`, `1` when
absent; each present field is validated (standard-chess castling letters). -/
def fromFen (fen : String) : Except String Board := do
  let parts := (splitOnChar ' ' fen.toList).filter (fun s => s ≠ [])
  match parts with
  | [] => .error "empty fen"
  | boardPart :: rest => do
    let turnAndRest ←
      match rest with
      | [] => .ok (Side.white, ([] : List (List Char)))
      | t :: r =>
        if t = ['w'] then .ok (Side.white, r)
        else if t = ['b'] then .ok (Side.black, r)
        else .error "expected w or b for turn part of fen"
    let (turn, rest) := turnAndRest
    let castlingAndRest ←
      match rest with
      | [] => .ok (['-'], ([] : List (List Char)))
      | cpart :: r =>
        if cpart = ['-'] ∨ (cpart ≠ [] ∧ cpart.all (fun c => c ∈ ['K', 'Q', 'k', 'q'])) then
          .ok (cpart, r)
        else .error "invalid castling part in fen"
    let (castlingPart, rest) := castlingAndRest
    let epAndRest ←
      match rest with
      | [] => .ok ((none : Option Nat), ([] : List (List Char)))
      | ['-'] :: r => .ok ((none : Option Nat), r)
      | epart :: r =>
        match parseSquareName epart with
        | some sq => .ok (some sq, r)
        | none => .error "invalid en passant part in fen"
    let (epSq, rest) := epAndRest
    let halfAndRest ←
      match rest with
      | [] => .ok (0, ([] : List (List Char)))
      | hpart :: r =>
        match digitsToNat hpart with
        | some n => .ok (n, r)
        | none => .error "invalid half-move clock in fen"
    let (halfmove, rest) := halfAndRest
    let fullAndRest ←
      match rest with
      | [] => .ok (1, ([] : List (List Char)))
      | fpart :: r =>
        match digitsToNat fpart with
        | some n => .ok (max n 1, r)
        | none => .error "invalid fullmove number in fen"
    let (fullmove, rest) := fullAndRest
    if !rest.isEmpty then .error "fen string has more parts than expected"
    else do
      let pieces ← parseBoardPart boardPart
      .ok { pieces := pieces, turn := turn,
            castleWK := castlingPart.contains 'K',
            castleWQ := castlingPart.contains 'Q',
            castleBK := castlingPart.contains 'k',
            castleBQ := castlingPart.contains 'q',
            epSquare := epSq, halfmove := halfmove, fullmove := fullmove }

/-- python-chess `board.push(move)` for standard chess: move the piece,
handling captures, en-passant capture, promotion, castling rook relocation,
the new en-passant square after a double pawn push, castling-rights updates,
the move counters, and the turn flip.  A move from an empty square only
flips the turn (the source never produces one). -/
def Board.push (b : Board) (m : Move) : Board :=
  match b.pieceAt m.fromSq with
  | none =>
    { b with turn := b.turn.other, epSquare := none,
             halfmove := b.halfmove + 1,
             fullmove := if b.turn = .black then b.fullmove + 1 else b.fullmove }
  | some p =>
    let isPawn := p.pt = .pawn
    let capturedDirect := (b.pieceAt m.toSq).isSome
    let diff : Int := (m.toSq : Int) - (m.fromSq : Int)
    let isEp := isPawn ∧ b.epSquare = some m.toSq ∧ ¬ capturedDirect ∧
      (diff = 7 ∨ diff = -7 ∨ diff = 9 ∨ diff = -9)
    let epCaptureSq : Nat := if b.turn = .white then m.toSq - 8 else m.toSq + 8
    let isCastle := p.pt = .king ∧
      (((m.fromSq : Int) % 8) - ((m.toSq : Int) % 8) > 1 ∨
        ((m.toSq : Int) % 8) - ((m.fromSq : Int) % 8) > 1)
    let placed : PieceType := match m.promo with
      | some promoPt => promoPt
      | none => p.pt
    let pieces1 := removeAt b.pieces m.fromSq
    let pieces2 := if isEp then removeAt pieces1 epCaptureSq else pieces1
    let pieces3 := setAt pieces2 m.toSq ⟨placed, p.color⟩
    let backRank : Nat := if b.turn = .white then 0 else 7
    let pieces4 :=
      if isCastle then
        if (m.toSq : Int) % 8 = 6 then
          setAt (removeAt pieces3 (backRank * 8 + 7)) (backRank * 8 + 5) ⟨.rook, p.color⟩
        else if (m.toSq : Int) % 8 = 2 then
          setAt (removeAt pieces3 (backRank * 8 + 0)) (backRank * 8 + 3) ⟨.rook, p.color⟩
        else pieces3
      else pieces3
    let newEp : Option Nat :=
      if isPawn ∧ diff = 16 ∧ m.fromSq / 8 = 1 then some (m.fromSq + 8)
      else if isPawn ∧ diff = -16 ∧ m.fromSq / 8 = 6 then some (m.fromSq - 8)
      else none
    let touched : Nat → Bool := fun sq => sq = m.fromSq || sq = m.toSq
    let kingMove := p.pt = .king
    { pieces := pieces4
      turn := b.turn.other
      castleWK := b.castleWK && !touched 7 && !(kingMove && b.turn = .white)
      castleWQ := b.castleWQ && !touched 0 && !(kingMove && b.turn = .white)
      castleBK := b.castleBK && !touched 63 && !(kingMove && b.turn = .black)
      castleBQ := b.castleBQ && !touched 56 && !(kingMove && b.turn = .black)
      epSquare := newEp
      halfmove := if isPawn ∨ capturedDirect ∨ isEp then 0 else b.halfmove + 1
      fullmove := if b.turn = .black then b.fullmove + 1 else b.fullmove }

/-- Expand a pawn move to the last rank into the four promotion moves
(python-chess pseudo-legal generation yields one move per promotion piece). -/
def promoExpand (c : Side) (m : Move) : List Move :=
  let lastRank : Nat := if c = .white then 7 else 0
  if m.toSq / 8 = lastRank then
    [PieceType.queen, .rook, .bishop, .knight].map (fun pt => { m with promo := some pt })
  else [m]

/-- Pseudo-legal pawn moves from `sq`: capture moves onto enemy pieces,
en-passant captures, single pushes, and double pushes from the start rank;
moves to the last rank are expanded into promotions. -/
def pawnMoves (b : Board) (sq : Nat) (c : Side) : List Move :=
  let captures := (b.attacks sq).filterMap (fun t =>
    match b.pieceAt t with
    | some q => if q.color = c then none else some (⟨sq, t, none⟩ : Move)
    | none => none)
  let epCaps := (b.attacks sq).filterMap (fun t =>
    if b.epSquare = some t ∧ (b.pieceAt t).isNone ∧
        sq / 8 = (if c = .white then 4 else 3) then
      some (⟨sq, t, none⟩ : Move)
    else none)
  let fwd : Int := if c = .white then 8 else -8
  let one : Int := (sq : Int) + fwd
  let singles : List Move :=
    if 0 ≤ one ∧ one < 64 ∧ (b.pieceAt one.toNat).isNone then [⟨sq, one.toNat, none⟩]
    else []
  let startRank : Nat := if c = .white then 1 else 6
  let two : Int := (sq : Int) + 2 * fwd
  let doubles : List Move :=
    if sq / 8 = startRank ∧ (b.pieceAt one.toNat).isNone ∧ 0 ≤ two ∧ two < 64 ∧
        (b.pieceAt two.toNat).isNone then [⟨sq, two.toNat, none⟩]
    else []
  (captures ++ epCaps ++ singles ++ doubles).flatMap (promoExpand c)

/-- Pseudo-legal moves of a non-pawn piece on `sq`: its attack squares not
occupied by an own piece. -/
def pieceMoves (b : Board) (sq : Nat) (p : Piece) : List Move :=
  (b.attacks sq).filterMap (fun t =>
    match b.pieceAt t with
    | some q => if q.color = p.color then none else some (⟨sq, t, none⟩ : Move)
    | none => some (⟨sq, t, none⟩ : Move))

/-- python-chess `generate_castling_moves` for standard chess: a castling
move requires the right, king and rook on their home squares, empty squares
between them, and the king's path (including its start square) not attacked
by the opponent. -/
def castlingMoves (b : Board) : List Move :=
  let rights := match b.turn with
    | Side.white => (b.castleWK, b.castleWQ, (0 : Nat))
    | Side.black => (b.castleBK, b.castleBQ, (7 : Nat))
  let base := rights.2.2 * 8
  let kSq := base + 4
  let enemyAttacks : Nat → Bool := fun sq => !(b.attackersList b.turn.other sq).isEmpty
  if b.pieceAt kSq == some ⟨.king, b.turn⟩ then
    (if rights.1 && (b.pieceAt (base + 7) == some ⟨.rook, b.turn⟩) &&
        (b.pieceAt (base + 5)).isNone && (b.pieceAt (base + 6)).isNone &&
        !enemyAttacks kSq && !enemyAttacks (base + 5) && !enemyAttacks (base + 6)
      then [(⟨kSq, base + 6, none⟩ : Move)] else []) ++
    (if rights.2.1 && (b.pieceAt (base + 0) == some ⟨.rook, b.turn⟩) &&
        (b.pieceAt (base + 1)).isNone && (b.pieceAt (base + 2)).isNone &&
        (b.pieceAt (base + 3)).isNone &&
        !enemyAttacks kSq && !enemyAttacks (base + 2) && !enemyAttacks (base + 3)
      then [(⟨kSq, base + 2, none⟩ : Move)] else [])
  else []

/-- All pseudo-legal moves of the side to move. -/
def Board.pseudoMoves (b : Board) : List Move :=
  ((List.range 64).flatMap (fun sq =>
    match b.pieceAt sq with
    | some p =>
      if p.color = b.turn then
        match p.pt with
        | .pawn => pawnMoves b sq p.color
        | _ => pieceMoves b sq p
      else []
    | none => [])) ++ castlingMoves b

/-- Whether playing `m` leaves the mover's own king attacked. -/
def Board.intoCheck (b : Board) (m : Move) : Bool :=
  let pushed := b.push m
  match pushed.kingSq b.turn with
  | none => false
  | some k => !(pushed.attackersList b.turn.other k).isEmpty

/-- `board.legal_moves`: pseudo-legal moves that do not leave the own king
in check. -/
def Board.legalMoves (b : Board) : List Move :=
  b.pseudoMoves.filter (fun m => !(b.intoCheck m))

/-- The piece type denoted by an upper-case SAN piece letter. -/
def sanPieceOfChar (c : Char) : Option PieceType :=
  match c with
  | 'N' => some .knight
  | 'B' => some .bishop
  | 'K' => some .king
  | 'R' => some .rook
  | 'Q' => some .queen
  | _ => none

/-- The piece type denoted by a SAN promotion letter (either case, as in the
source's `[nbrqkNBRQK]`). -/
def promoLetterOf (c : Char) : Option PieceType :=
  match c with
  | 'n' | 'N' => some .knight
  | 'b' | 'B' => some .bishop
  | 'r' | 'R' => some .rook
  | 'q' | 'Q' => some .queen
  | 'k' | 'K' => some .king
  | _ => none

/-- The components captured by python-chess's `SAN_REGEX`
`^([NBKRQ])?([a-h])?([1-8])?[\x2dx]?([a-h][1-8])(=?[nbrqkNBRQK])?[+#]?$`. -/
structure SanParts where
  pieceLetter : Option PieceType
  fromFile : Option Nat
  fromRank : Option Nat
  toSq : Nat
  promo : Option PieceType
deriving DecidableEq, Repr

/-- Match a (non-castling) SAN string against `SAN_REGEX`. -/
def parseSanRegex (cs0 : List Char) : Option SanParts :=
  let cs1 := match cs0.getLast? with
    | some c => if c = '+' ∨ c = '#' then cs0.dropLast else cs0
    | none => cs0
  let stripped : List Char × Option PieceType := match cs1.getLast? with
    | some c =>
      match promoLetterOf c with
      | some pt =>
        let cs' := cs1.dropLast
        (match cs'.getLast? with
          | some '=' => cs'.dropLast
          | _ => cs', some pt)
      | none => (cs1, none)
    | none => (cs1, none)
  let cs2 := stripped.1
  let promo := stripped.2
  match cs2.getLast?, cs2.dropLast.getLast? with
  | some rankC, some fileC =>
    if 'a' ≤ fileC ∧ fileC ≤ 'h' ∧ '1' ≤ rankC ∧ rankC ≤ '8' then
      let toSq := (rankC.toNat - '1'.toNat) * 8 + (fileC.toNat - 'a'.toNat)
      let rem0 := cs2.dropLast.dropLast
      let st1 : List Char × Option PieceType := match rem0 with
        | c :: rest =>
          match sanPieceOfChar c with
          | some pt => (rest, some pt)
          | none => (rem0, none)
        | [] => ([], none)
      let st2 : List Char × Option Nat := match st1.1 with
        | c :: rest =>
          if 'a' ≤ c ∧ c ≤ 'h' then (rest, some (c.toNat - 'a'.toNat)) else (st1.1, none)
        | [] => ([], none)
      let st3 : List Char × Option Nat := match st2.1 with
        | c :: rest =>
          if '1' ≤ c ∧ c ≤ '8' then (rest, some (c.toNat - '1'.toNat)) else (st2.1, none)
        | [] => ([], none)
      let rem4 := match st3.1 with
        | c :: rest => if c = '-' ∨ c = 'x' then rest else st3.1
        | [] => []
      if rem4.isEmpty then
        some ⟨st1.2, st2.2, st3.2, toSq, promo⟩
      else none
    else none
  | _, _ => none

/-- python-chess `board.parse_san(san)`: resolve castling strings against the
generated castling moves, otherwise match `SAN_REGEX` and find the unique
legal move fitting the target square (own-piece targets excluded), the piece
letter (a pawn when absent, with captures requiring the file disambiguator),
the `from`-square disambiguators, and the promotion; `.error` models the
raised `ValueError` (invalid, illegal or ambiguous SAN). -/
def parseSan (b : Board) (san : String) : Except String Move :=
  if san ∈ ["O-O", "O-O+", "O-O#", "0-0", "0-0+", "0-0#"] then
    match (castlingMoves b).find? (fun m => m.toSq % 8 == 6) with
    | some m => .ok m
    | none => .error "illegal san"
  else if san ∈ ["O-O-O", "O-O-O+", "O-O-O#", "0-0-0", "0-0-0+", "0-0-0#"] then
    match (castlingMoves b).find? (fun m => m.toSq % 8 == 2) with
    | some m => .ok m
    | none => .error "illegal san"
  else
    match parseSanRegex san.toList with
    | none => .error "invalid san"
    | some parts =>
      let candidates := b.legalMoves.filter (fun m =>
        m.toSq == parts.toSq &&
        (match b.pieceAt parts.toSq with
          | some q => q.color = b.turn.other
          | none => true : Bool) &&
        m.promo == parts.promo &&
        (match parts.pieceLetter with
          | some pt =>
            (match b.pieceAt m.fromSq with
              | some q => q.pt = pt
              | none => false : Bool)
          | none =>
            (match b.pieceAt m.fromSq with
              | some q => q.pt = .pawn
              | none => false : Bool) &&
            (parts.fromFile.isSome || (m.fromSq % 8 == parts.toSq % 8))) &&
        (match parts.fromFile with
          | some f => m.fromSq % 8 == f
          | none => true) &&
        (match parts.fromRank with
          | some r => m.fromSq / 8 == r
          | none => true))
      match candidates with
      | [] => .error "illegal san"
      | [m] => .ok m
      | _ => .error "ambiguous san"

/-! ## Theme tagger (`app/utils/drill_themes.py`) -/

/-- `HIGH_VALUE = {QUEEN, ROOK, KING}`. -/
def HIGH_VALUE : List PieceType := [.queen, .rook, .king]

/-- `SLIDERS = {BISHOP, ROOK, QUEEN}`. -/
def SLIDERS : List PieceType := [.bishop, .rook, .queen]

/-- `DIRECTIONS = [8, -8, 1, -1, 9, -9, 7, -7]` (rook + bishop deltas on
0–63 square indices). -/
def DIRECTIONS : List Int := [8, -8, 1, -1, 9, -9, 7, -7]

/-- The slider → enemy-target attack pairs of `mover`'s bishops, rooks and
queens (the `pre_attacks` / `post_attacks` comprehension of
`detect_themes`). -/
def sliderTargets (b : Board) (mover : Side) : List (Nat × Nat) :=
  SLIDERS.flatMap (fun pt =>
    (b.piecesOf pt mover).flatMap (fun src =>
      ((b.attacks src).filter (fun tgt =>
        match b.pieceAt tgt with
        | some q => q.color ≠ mover
        | none => false)).map (fun tgt => (src, tgt))))

/-- The knight-fork test of `detect_themes`: some knight of `opp` (the side
to move after the push) attacks at least two pieces of the other colour
whose type is in `HIGH_VALUE`. -/
def knightForkCond (b2 : Board) (opp : Side) : Bool :=
  (b2.piecesOf .knight opp).any (fun sq =>
    2 ≤ ((b2.attacks sq).filter (fun t =>
      match b2.pieceAt t with
      | some q => q.color ≠ opp ∧ q.pt ∈ HIGH_VALUE
      | none => false)).length)

/-- The pin test of `detect_themes`: some pawn/knight/bishop/rook/queen of
`opp` is pinned to its king. -/
def pinCond (b2 : Board) (opp : Side) : Bool :=
  ((b2.piecesOf .pawn opp) ++ (b2.piecesOf .knight opp) ++ (b2.piecesOf .bishop opp) ++
    (b2.piecesOf .rook opp) ++ (b2.piecesOf .queen opp)).any (fun sq => b2.isPinned opp sq)

/-- The per-direction ray walk of the skewer test: step by the raw square
delta `d`, stopping at the board edge or a file wrap (for the six non-vertical
deltas); collect enemy pieces, break on an own piece, and when the second
enemy piece is reached report whether both are `HIGH_VALUE`.  The walk scans
through the first enemy piece. -/
def skewerWalk (b : Board) (opp : Side) (d : Int) :
    Nat → Int → List PieceType → Bool
  | 0, _, _ => false
  | fuel + 1, sq, seen =>
    let sq2 := sq + d
    if ¬ (0 ≤ sq2 ∧ sq2 < 64) then false
    else if 1 < |sq2 % 8 - (sq2 - d) % 8| ∧
        (d = 1 ∨ d = -1 ∨ d = 9 ∨ d = -7 ∨ d = -9 ∨ d = 7) then false
    else
      match b.pieceAt sq2.toNat with
      | some p =>
        if p.color = opp then
          let seen2 := seen ++ [p.pt]
          if seen2.length = 2 then
            decide (seen2.headD .pawn ∈ HIGH_VALUE ∧ p.pt ∈ HIGH_VALUE)
          else skewerWalk b opp d fuel sq2 seen2
        else false
      | none => skewerWalk b opp d fuel sq2 seen

/-- The skewer test of `detect_themes`: from some slider of the mover, along
some of the 8 ray directions, the first two enemy pieces encountered are both
`HIGH_VALUE`. -/
def skewerCond (b2 : Board) (mover opp : Side) : Bool :=
  ((b2.piecesOf .bishop mover) ++ (b2.piecesOf .rook mover) ++
      (b2.piecesOf .queen mover)).any (fun attacker =>
    DIRECTIONS.any (fun d => skewerWalk b2 opp d 64 (attacker : Int) []))

/-- The pre-move tags of `detect_themes`, in append order: `capture`,
`check`, the pawn tags (`pawn_push`, `en_passant`, `promotion`), and
`castling`. -/
def preThemes (b : Board) (m : Move) : List String :=
  (if b.isCapture m then ["capture"] else []) ++
  (if b.isCheck then ["check"] else []) ++
  (match b.pieceAt m.fromSq with
    | some p =>
      if p.pt = .pawn then
        ["pawn_push"] ++
        (if b.isEnPassant m then ["en_passant"] else []) ++
        (if m.toSq / 8 = 0 ∨ m.toSq / 8 = 7 then ["promotion"] else [])
      else []
    | none => []) ++
  (if b.isCastling m then ["castling"] else [])

/-- The body of `detect_themes` after a successful SAN parse: the pre-move
tags, then — on the pushed board — `knight_fork`, `discovered_check` (check
not already tagged), `discovered_attack` (a new slider → enemy attack pair),
`pin` and `skewer`, in the source's append order. -/
def detectThemesCore (b : Board) (m : Move) : List String :=
  let mover := b.turn
  let preAttacks := sliderTargets b mover
  let b2 := b.push m
  let opp := b2.turn
  let t5 := preThemes b m ++ (if knightForkCond b2 opp then ["knight_fork"] else [])
  let t6 := t5 ++
    (if b2.isCheck && !(t5.contains "check") then ["discovered_check"] else [])
  let t7 := t6 ++
    (if (sliderTargets b2 mover).any (fun pr => pr ∉ preAttacks) then
      ["discovered_attack"] else [])
  let t8 := t7 ++ (if pinCond b2 opp then ["pin"] else [])
  t8 ++ (if skewerCond b2 mover opp then ["skewer"] else [])

/-- `app/utils/drill_themes.py` `detect_themes`: build the board from the
FEN (a malformed FEN raises, modelled as `.error`), parse the SAN against it
(returning the empty tag list on parse failure), and otherwise compute the
tags. -/
def detect_themes (fen san : String) : Except String (List String) := do
  let board ← fromFen fen
  match parseSan board san with
  | .error _ => .ok []
  | .ok m => .ok (detectThemesCore board m)

/-- The board of FEN `7k/3q4/6r1/8/8/5N2/8/K7 w - - 0 1` (White: Ka1 = 0,
Nf3 = 21; Black: Kh8 = 63, Qd7 = 51, Rg6 = 46), White to move. -/
def boardMoverFork : Board :=
  ⟨[(63, ⟨.king, .black⟩), (51, ⟨.queen, .black⟩), (46, ⟨.rook, .black⟩),
    (21, ⟨.knight, .white⟩), (0, ⟨.king, .white⟩)],
    .white, false, false, false, false, none, 0, 1⟩

/-- The board of FEN `7k/8/8/5R2/3n4/8/4Q2P/7K w - - 0 1` (White: Kh1 = 7,
Qe2 = 12, Ph2 = 15, Rf5 = 37; Black: Kh8 = 63, Nd4 = 27), White to move:
after White's `h3`, the black knight on d4 forks Qe2 and Rf5. -/
def boardOppFork : Board :=
  ⟨[(63, ⟨.king, .black⟩), (37, ⟨.rook, .white⟩), (27, ⟨.knight, .black⟩),
    (12, ⟨.queen, .white⟩), (15, ⟨.pawn, .white⟩), (7, ⟨.king, .white⟩)],
    .white, false, false, false, false, none, 0, 1⟩

/-! ## Theorems -/

/-- C10: the two `classify_phase` definitions — the one in the drills route
module and the one in the drills service module — are extensionally equal:
for every input tuple they return the same phase label. -/
theorem classify_phase_route_service_equiv :
    ∀ (ply : Nat) (wq bq : Option Bool) (wr br wm bm : Option Nat) (thr : Nat),
      Routes.classify_phase ply wq bq wr br wm bm thr =
        DrillsService.classify_phase ply wq bq wr br wm bm thr :=
  fun _ _ _ _ _ _ _ _ => rfl

/-- C4: `classify_phase` computes `move_number = ceil(ply/2)`; with any
material input missing it returns `opening` when `move_number <
opening_threshold` and otherwise `middle`; otherwise it returns `opening`
when `move_number < opening_threshold` and at least one queen remains;
otherwise, with per-side score `queens*2 + rooks + minors` and `material`
the max of the two sides, it returns `middle` when `material ≥ 5`, `late`
when `material` is 3 or 4, and `endgame` when `material ≤ 2`. -/
theorem classify_phase_matches_spec :
    ∀ (ply : Nat) (wq bq : Option Bool) (wr br wm bm : Option Nat) (thr : Nat),
      Routes.classify_phase ply wq bq wr br wm bm thr =
        classify_phase_spec ply wq bq wr br wm bm thr := by
  intro ply wq bq wr br wm bm thr
  cases wq <;> cases bq <;> cases wr <;> cases br <;> cases wm <;> cases bm <;>
    simp only [Routes.classify_phase, classify_phase_spec]
  rename_i wq bq wr br wm bm
  cases wq <;> cases bq <;> split_ifs <;> first | rfl | omega

/-- C5 counterexample: with `opening_threshold = 10`, both queens present and
full material, `classify_phase(ply=19, ...)` does **not** return `opening`
(it returns `middle`): ply 19 is move `ceil(19/2) = 10`, and `10 < 10`
fails, contradicting the claim that ply 19 yields `opening`. -/
theorem classify_phase_ply19_not_opening :
    Routes.classify_phase 19 (some true) (some true) (some 2) (some 2)
      (some 4) (some 4) 10 ≠ "opening" := by decide

/-- C5 amended: with `opening_threshold = 10`, full material inputs and at
least one queen present, `classify_phase(ply=18, ...)` returns `opening`
(move 9), while `classify_phase(ply=19, ...)` and `classify_phase(ply=20,
...)` with the same material return a value other than `opening`: plies 19
and 20 are move 10, and the opening test `move_number < opening_threshold`
is strict, so move 10 is the first non-opening move. -/
theorem classify_phase_opening_boundary (wq bq : Bool) (wr br wm bm : Nat)
    (hq : wq ∨ bq) :
    Routes.classify_phase 18 (some wq) (some bq) (some wr) (some br)
        (some wm) (some bm) 10 = "opening" ∧
    Routes.classify_phase 19 (some wq) (some bq) (some wr) (some br)
        (some wm) (some bm) 10 ≠ "opening" ∧
    Routes.classify_phase 20 (some wq) (some bq) (some wr) (some br)
        (some wm) (some bm) 10 ≠ "opening" := by
  refine ⟨?_, ?_, ?_⟩ <;>
    cases wq <;> cases bq <;>
      simp_all only [Routes.classify_phase] <;>
        split_ifs <;> simp_all

/-- C5 amended, witness at full starting material with both queens. -/
theorem classify_phase_opening_boundary_witness :
    Routes.classify_phase 18 (some true) (some true) (some 2) (some 2)
        (some 4) (some 4) 10 = "opening" ∧
    Routes.classify_phase 19 (some true) (some true) (some 2) (some 2)
        (some 4) (some 4) 10 ≠ "opening" ∧
    Routes.classify_phase 20 (some true) (some true) (some 2) (some 2)
        (some 4) (some 4) 10 ≠ "opening" :=
  classify_phase_opening_boundary true true 2 2 4 4 (Or.inl rfl)

/-- The tolerance loop is the maximal within-tolerance prefix: it returns the
head moves and the full lines of `takeWhile (best - score ≤ tolerance)`. -/
theorem winningLoop_eq_takeWhile (best : Int) (l : List (Int × List String)) :
    winningLoop best l =
      (((l.takeWhile (fun x => best - x.1 ≤ WINNING_MOVE_TOLERANCE)).map
          (fun x => x.2.headD "")),
        ((l.takeWhile (fun x => best - x.1 ≤ WINNING_MOVE_TOLERANCE)).map
          (fun x => x.2))) := by
  induction l with
  | nil => rfl
  | cons hd tl ih =>
    obtain ⟨cpHero, line⟩ := hd
    by_cases h : best - cpHero ≤ WINNING_MOVE_TOLERANCE
    · have h' : best ≤ WINNING_MOVE_TOLERANCE + cpHero := by omega
      simp [winningLoop, List.takeWhile_cons, h, h', ih]
    · have h' : WINNING_MOVE_TOLERANCE + cpHero < best := by omega
      simp [winningLoop, List.takeWhile_cons, h, h']

/-- `takeWhile` and `filter` agree on a list where the failure of the
predicate propagates rightwards. -/
theorem takeWhile_eq_filter_of_pairwise {α : Type} {p : α → Bool} :
    ∀ {l : List α}, l.Pairwise (fun a b => p a = false → p b = false) →
      l.takeWhile p = l.filter p := by
  intro l
  induction l with
  | nil => simp
  | cons hd tl ih =>
    intro hp
    rcases List.pairwise_cons.mp hp with ⟨hhd, htl⟩
    by_cases h : p hd
    · simp [List.takeWhile_cons, List.filter_cons, h, ih htl]
    · have hall : ∀ x ∈ tl, p x = false := fun x hx =>
        hhd x hx (by simpa using h)
      simp only [List.takeWhile_cons, List.filter_cons, h,
        Bool.false_eq_true, if_neg]
      simp only [eq_false_of_ne_true h, if_false]
      exact (List.filter_eq_nil_iff.mpr (fun a ha => by simp [hall a ha])).symm

/-- C2: for every evaluator output with at least one line, the assessment of
`unified_winning_logic` satisfies `has_one_winning_move = (len(winning_moves)
== 1)`, and `winning_moves` is non-empty. -/
theorem unified_winning_logic_count_invariant (heroSide : Side)
    (analysis : List PvInfo) (h : analysis ≠ []) :
    ((unified_winning_logic heroSide analysis).1 = true ↔
      (unified_winning_logic heroSide analysis).2.1.length = 1) ∧
    (unified_winning_logic heroSide analysis).2.1 ≠ [] := by
  obtain ⟨info, rest, rfl⟩ := List.exists_cons_of_ne_nil h
  constructor
  · simp [unified_winning_logic]
  · simp [unified_winning_logic, winningLoop_eq_takeWhile, List.takeWhile_cons,
      WINNING_MOVE_TOLERANCE]

/-- C2, witness: a single-line evaluator output. -/
theorem unified_winning_logic_count_invariant_witness :
    (([⟨Score.cp 10, ["e4"]⟩] : List PvInfo) ≠ []) ∧
    (((unified_winning_logic .white [⟨Score.cp 10, ["e4"]⟩]).1 = true ↔
      (unified_winning_logic .white [⟨Score.cp 10, ["e4"]⟩]).2.1.length = 1) ∧
    (unified_winning_logic .white [⟨Score.cp 10, ["e4"]⟩]).2.1 ≠ []) :=
  ⟨by decide,
    unified_winning_logic_count_invariant .white [⟨Score.cp 10, ["e4"]⟩] (by decide)⟩

/-- C3: for every evaluator output whose hero-signed scores are sorted
best-first, the first line's hero-signed score is the maximum; the walk
selects, in rank order, exactly the maximal prefix of lines with
`best - line_score ≤ WINNING_MOVE_TOLERANCE` (stopping at the first failing
line), and — because sortedness makes failure monotonic — that prefix
contains precisely the within-tolerance lines. -/
theorem unified_winning_logic_tolerance_prefix (heroSide : Side)
    (info : PvInfo) (rest : List PvInfo)
    (hsort : (List.map (fun i => signedCp heroSide (get_cp i.score))
      (info :: rest)).Sorted (· ≥ ·)) :
    (∀ s ∈ List.map (fun i => signedCp heroSide (get_cp i.score)) (info :: rest),
      s ≤ signedCp heroSide (get_cp info.score)) ∧
    (unified_winning_logic heroSide (info :: rest)).2.2 =
      ((info :: rest).takeWhile (fun i =>
        decide (signedCp heroSide (get_cp info.score) -
          signedCp heroSide (get_cp i.score) ≤ WINNING_MOVE_TOLERANCE))).map
        (fun i => i.pv) ∧
    (unified_winning_logic heroSide (info :: rest)).2.1 =
      ((info :: rest).takeWhile (fun i =>
        decide (signedCp heroSide (get_cp info.score) -
          signedCp heroSide (get_cp i.score) ≤ WINNING_MOVE_TOLERANCE))).map
        (fun i => i.pv.headD "") ∧
    (info :: rest).takeWhile (fun i =>
        decide (signedCp heroSide (get_cp info.score) -
          signedCp heroSide (get_cp i.score) ≤ WINNING_MOVE_TOLERANCE)) =
      (info :: rest).filter (fun i =>
        decide (signedCp heroSide (get_cp info.score) -
          signedCp heroSide (get_cp i.score) ≤ WINNING_MOVE_TOLERANCE)) := by
  have hpair : (info :: rest).Pairwise (fun a b =>
      signedCp heroSide (get_cp a.score) ≥ signedCp heroSide (get_cp b.score)) :=
    List.pairwise_map.mp hsort
  have hfilter := takeWhile_eq_filter_of_pairwise
    (p := fun i => decide (signedCp heroSide (get_cp info.score) -
      signedCp heroSide (get_cp i.score) ≤ WINNING_MOVE_TOLERANCE))
    (hpair.imp (by
      intro a b hab hpa
      simp only [decide_eq_false_iff_not, not_le] at hpa ⊢
      omega))
  refine ⟨?_, ?_, ?_, hfilter⟩
  · rw [List.map_cons, List.sorted_cons] at hsort
    intro s hs
    rcases List.mem_cons.mp hs with h | h
    · exact le_of_eq (by simpa using h)
    · exact hsort.1 s (by simpa using h)
  · simp only [unified_winning_logic, List.map_cons, List.zip_cons_cons,
      winningLoop_eq_takeWhile]
    rw [show (List.map (fun i => signedCp heroSide (get_cp i.score)) rest).zip
        (List.map (fun i : PvInfo => i.pv) rest) =
        List.map (fun i : PvInfo =>
          (signedCp heroSide (get_cp i.score), i.pv)) rest from
      List.zip_map' _ _ rest]
    rw [show ((signedCp heroSide (get_cp info.score), info.pv) ::
        List.map (fun i : PvInfo =>
          (signedCp heroSide (get_cp i.score), i.pv)) rest) =
        List.map (fun i : PvInfo =>
          (signedCp heroSide (get_cp i.score), i.pv)) (info :: rest) from rfl]
    rw [List.takeWhile_map, List.map_map]
    rfl
  · simp only [unified_winning_logic, List.map_cons, List.zip_cons_cons,
      winningLoop_eq_takeWhile]
    rw [show (List.map (fun i => signedCp heroSide (get_cp i.score)) rest).zip
        (List.map (fun i : PvInfo => i.pv) rest) =
        List.map (fun i : PvInfo =>
          (signedCp heroSide (get_cp i.score), i.pv)) rest from
      List.zip_map' _ _ rest]
    rw [show ((signedCp heroSide (get_cp info.score), info.pv) ::
        List.map (fun i : PvInfo =>
          (signedCp heroSide (get_cp i.score), i.pv)) rest) =
        List.map (fun i : PvInfo =>
          (signedCp heroSide (get_cp i.score), i.pv)) (info :: rest) from rfl]
    rw [List.takeWhile_map, List.map_map]
    rfl

/-- C3, witness: a sorted three-line output (scores 100, 80, 0 with
tolerance 50 selects exactly the first two lines). -/
theorem unified_winning_logic_tolerance_prefix_witness :
    ((List.map (fun i => signedCp .white (get_cp i.score))
      ([⟨Score.cp 100, ["a1"]⟩, ⟨Score.cp 80, ["b1"]⟩, ⟨Score.cp 0, ["c1"]⟩] :
        List PvInfo)).Sorted (· ≥ ·)) ∧
    (unified_winning_logic .white
      [⟨Score.cp 100, ["a1"]⟩, ⟨Score.cp 80, ["b1"]⟩, ⟨Score.cp 0, ["c1"]⟩]).2.1 =
      ["a1", "b1"] := by
  have h := unified_winning_logic_tolerance_prefix .white ⟨Score.cp 100, ["a1"]⟩
    [⟨Score.cp 80, ["b1"]⟩, ⟨Score.cp 0, ["c1"]⟩] (by decide)
  exact ⟨by decide, by rw [h.2.2.1]; decide⟩

/-- With a total (never-failing) evaluator, the miner's scan emits exactly
the per-ply decisions of `specDrillAt`, in ply order. -/
theorem drillScan_total_eq_spec (f : Nat → Score) (heroSide : Side) (thr : Int)
    (game : List HalfMove) (tc : Option (Nat × Nat)) :
    ∀ (plies : List HalfMove) (n : Nat),
      drillScan (fun i => .ok (f i)) heroSide thr game tc plies n =
        .ok ((plies.enumFrom n).filterMap
          (fun e => specDrillAt f heroSide thr game tc e.1 e.2)) := by
  intro plies
  induction plies with
  | nil => intro n; rfl
  | cons hm rest ih =>
    intro n
    by_cases hmov : hm.mover = heroSide
    · by_cases hδ : (get_cp (f n) - get_cp (f (n + 1))) * heroSign heroSide ≥ thr
      · have hδ2 : thr ≤ heroSign heroSide * (get_cp (f n) - get_cp (f (n + 1))) := by
          rw [Int.mul_comm]; exact hδ
        simp [drillScan, hmov, ih, List.enumFrom, specDrillAt, hδ2,
          Int.mul_comm, Bind.bind, Except.bind, ge_iff_le, List.filterMap_cons]
      · have hδ2 : ¬ thr ≤ heroSign heroSide * (get_cp (f n) - get_cp (f (n + 1))) := by
          rw [Int.mul_comm]; exact hδ
        simp [drillScan, hmov, ih, List.enumFrom, specDrillAt, hδ2,
          Int.mul_comm, Bind.bind, Except.bind, ge_iff_le, List.filterMap_cons]
    · simp [drillScan, hmov, ih, List.enumFrom, specDrillAt, List.filterMap_cons]

/-- C1: with a total evaluator, the miner emits a drill candidate for a ply
iff the ply is a hero ply whose hero-signed swing
`sign(hero) * (cp_before − cp_after)` (with `sign(white) = +1`,
`sign(black) = −1`) reaches `SWING_THRESHOLD`, carrying
`initial_eval = cp_before` and the pre-move SAN — and, concretely, a white
hero ply falling from +300 to +50 and a black hero ply falling from −300 to
−50 both have swing 250 and are both emitted for any threshold ≤ 250. -/
theorem shallow_drills_swing_characterization (f : Nat → Score)
    (heroSide : Side) (plies : List HalfMove) (tc : Option (Nat × Nat))
    (thr : Int) (hthr : thr ≤ 250) :
    (shallow_drills_for_hero (fun i => .ok (f i)) (some plies) heroSide tc =
      .ok ((plies.enumFrom 0).filterMap
        (fun e => specDrillAt f heroSide SWING_THRESHOLD plies tc e.1 e.2))) ∧
    (drillScan (fun i => .ok (if i = 0 then Score.cp 300 else Score.cp 50))
        .white thr [⟨.white, "fenW", "sanW", none⟩] none
        [⟨.white, "fenW", "sanW", none⟩] 0 =
      .ok [⟨"fenW", 0, 250, 300, "sanW", none⟩]) ∧
    (drillScan (fun i => .ok (if i = 0 then Score.cp (-300) else Score.cp (-50)))
        .black thr [⟨.black, "fenB", "sanB", none⟩] none
        [⟨.black, "fenB", "sanB", none⟩] 0 =
      .ok [⟨"fenB", 0, 250, -300, "sanB", none⟩]) := by
  refine ⟨drillScan_total_eq_spec f heroSide SWING_THRESHOLD plies tc plies 0, ?_, ?_⟩
  · simp only [drillScan, Bind.bind, Except.bind]
    norm_num [get_cp, heroSign, extract_time_used, parsedTimeControl, timeLoop,
      clock_from_comment]
    exact hthr
  · simp only [drillScan, Bind.bind, Except.bind]
    norm_num [get_cp, heroSign, extract_time_used, parsedTimeControl, timeLoop,
      clock_from_comment]
    have hite : (if Side.black = Side.white then (-250 : Int) else 250) = 250 := by
      decide
    rw [hite, if_pos hthr]

/-- C1, witness: the claim's white scenario at the source threshold 100. -/
theorem shallow_drills_swing_characterization_witness :
    (100 : Int) ≤ 250 ∧
    (drillScan (fun i => .ok (if i = 0 then Score.cp 300 else Score.cp 50))
        .white 100 [⟨.white, "fenW", "sanW", none⟩] none
        [⟨.white, "fenW", "sanW", none⟩] 0 =
      .ok [⟨"fenW", 0, 250, 300, "sanW", none⟩]) :=
  ⟨by decide,
    (shallow_drills_swing_characterization (fun _ => Score.cp 0) .white [] none
      100 (by decide)).2.1⟩

/-- A successful scan implies every evaluator call it makes succeeded: for
every hero ply the pre-move and post-move evaluations both returned `.ok`. -/
theorem drillScan_ok_requires_eval_ok (evalPos : Nat → Except String Score)
    (heroSide : Side) (thr : Int) (game : List HalfMove)
    (tc : Option (Nat × Nat)) :
    ∀ (plies : List HalfMove) (n : Nat) (ds : List Drill),
      drillScan evalPos heroSide thr game tc plies n = .ok ds →
      ∀ j (hj : j < plies.length), (plies.get ⟨j, hj⟩).mover = heroSide →
        (∃ v, evalPos (n + j) = .ok v) ∧ (∃ v, evalPos (n + j + 1) = .ok v) := by
  intro plies
  induction plies with
  | nil => intro n ds _ j hj; exact absurd hj (by simp)
  | cons hm rest ih =>
    intro n ds hok j hj hmover
    by_cases hmov : hm.mover = heroSide
    · rw [drillScan, if_pos hmov] at hok
      rcases hB : evalPos n with eB | vB
      · rw [hB] at hok; simp [Bind.bind, Except.bind] at hok
      rcases hA : evalPos (n + 1) with eA | vA
      · rw [hB, hA] at hok; simp [Bind.bind, Except.bind] at hok
      rcases hT : drillScan evalPos heroSide thr game tc rest (n + 1) with eT | vT
      · rw [hB, hA, hT] at hok; simp [Bind.bind, Except.bind] at hok
      · match j with
        | 0 => exact ⟨⟨vB, by simpa using hB⟩, ⟨vA, by simpa using hA⟩⟩
        | j' + 1 =>
          have := ih (n + 1) vT hT j' (by simpa using hj) (by simpa using hmover)
          refine ⟨?_, ?_⟩
          · have h1 := this.1
            rwa [show n + 1 + j' = n + (j' + 1) by omega] at h1
          · have h2 := this.2
            rwa [show n + 1 + j' + 1 = n + (j' + 1) + 1 by omega] at h2
    · rw [drillScan, if_neg hmov] at hok
      match j with
      | 0 => exact absurd (by simpa using hmover) hmov
      | j' + 1 =>
        have := ih (n + 1) ds hok j' (by simpa using hj) (by simpa using hmover)
        refine ⟨?_, ?_⟩
        · have h1 := this.1
          rwa [show n + 1 + j' = n + (j' + 1) by omega] at h1
        · have h2 := this.2
          rwa [show n + 1 + j' + 1 = n + (j' + 1) + 1 by omega] at h2

/-- C6 amended: `shallow_drills_for_hero` has no per-ply failure recovery —
an evaluator failure propagates and aborts the whole scan, so a scan that
returns a candidate list at all had every hero-ply evaluation succeed. -/
theorem shallow_drills_no_per_ply_skip (evalPos : Nat → Except String Score)
    (heroSide : Side) (tc : Option (Nat × Nat)) (plies : List HalfMove)
    (ds : List Drill)
    (h : shallow_drills_for_hero evalPos (some plies) heroSide tc = .ok ds) :
    ∀ j (hj : j < plies.length), (plies.get ⟨j, hj⟩).mover = heroSide →
      (∃ v, evalPos j = .ok v) ∧ (∃ v, evalPos (j + 1) = .ok v) := by
  intro j hj hmover
  have := drillScan_ok_requires_eval_ok evalPos heroSide SWING_THRESHOLD plies
    tc plies 0 ds h j hj hmover
  simpa using this

/-- C6 amended, witness: a failure-free two-hero-ply game. -/
theorem shallow_drills_no_per_ply_skip_witness :
    (∃ v, (fun i => (Except.ok (Score.cp (if i = 2 then 300 else 0)) :
      Except String Score)) 2 = .ok v) ∧
    (∃ v, (fun i => (Except.ok (Score.cp (if i = 2 then 300 else 0)) :
      Except String Score)) 3 = .ok v) :=
  shallow_drills_no_per_ply_skip
    (fun i => .ok (Score.cp (if i = 2 then 300 else 0)))
    .white none
    [⟨.white, "f0", "a", none⟩, ⟨.black, "f1", "b", none⟩, ⟨.white, "f2", "c", none⟩]
    [⟨"f2", 2, 300, 300, "c", none⟩] (by rfl) 2 (by decide) (by decide)

/-- C6 counterexample: with an evaluator that fails only on the very first
position, the whole scan aborts with the error — even though the same game
scanned with the evaluator repaired at that one position yields a drill
candidate from another ply.  The claim that a failing ply is skipped and the
other plies' candidates are still returned is false. -/
theorem shallow_drills_eval_failure_aborts :
    shallow_drills_for_hero
        (fun i => if i = 0 then .error "engine crashed"
          else .ok (Score.cp (if i = 2 then 300 else 0)))
        (some [⟨.white, "f0", "a", none⟩, ⟨.black, "f1", "b", none⟩,
          ⟨.white, "f2", "c", none⟩]) .white none =
      .error "engine crashed" ∧
    shallow_drills_for_hero
        (fun i => .ok (Score.cp (if i = 2 then 300 else 0)))
        (some [⟨.white, "f0", "a", none⟩, ⟨.black, "f1", "b", none⟩,
          ⟨.white, "f2", "c", none⟩]) .white none =
      .ok [⟨"f2", 2, 300, 300, "c", none⟩] := ⟨rfl, rfl⟩

/-- `round1` is the identity on whole multiples of one tenth. -/
theorem round1_tenths (k : ℤ) : round1 ((k : ℚ) / 10) = (k : ℚ) / 10 := by
  unfold round1
  rw [show (10 : ℚ) * ((k : ℚ) / 10) = (k : ℚ) by ring, round_intCast]

/-- Clamping at zero commutes with the tenth-of-a-second scaling. -/
theorem max0_tenths (m : ℤ) :
    max 0 ((m : ℚ) / 10) = ((max 0 m : ℤ) : ℚ) / 10 := by
  rcases le_total m 0 with h | h
  · have hq : ((m : ℚ)) ≤ 0 := by exact_mod_cast h
    rw [max_eq_left (by linarith : ((m : ℚ) / 10) ≤ 0), max_eq_left h]
    norm_num
  · have hq : (0 : ℚ) ≤ (m : ℚ) := by exact_mod_cast h
    rw [max_eq_right (by linarith : (0 : ℚ) ≤ (m : ℚ) / 10), max_eq_right h]

/-- A known clock value is a whole number of tenths of a second. -/
def IsTenths (o : Option ℚ) : Prop :=
  ∀ q, o = some q → ∃ k : ℤ, q = (k : ℚ) / 10

/-- Parsed clock readings are whole numbers of tenths (`round(total, 1)`). -/
theorem clock_from_comment_tenths (c : Option ℚ) :
    IsTenths (clock_from_comment c) := by
  intro q hq
  cases c with
  | none => simp [clock_from_comment] at hq
  | some raw =>
    refine ⟨round (10 * raw), ?_⟩
    simp only [clock_from_comment, Option.map_some', Option.some_inj] at hq
    rw [← hq]
    rfl

/-- The mover's entry of the `last` remaining-clock dict. -/
def initLast (m : Side) (lastW lastB : Option ℚ) : Option ℚ :=
  match m with
  | .white => lastW
  | .black => lastB

/-- The replay loop of `extract_time_used`, characterised: starting from
per-side last-known clocks that are whole tenths (with the increment a whole
number of seconds), the loop returns a value for target index `i` iff the
mainline reaches index `i`, the target ply's clock comment parses, and the
mover's last-known remaining clock at that point is known — and then the
value is exactly `max 0 (last_remaining + inc − remaining)` (the `round(·,1)`
is the identity there). -/
theorem timeLoop_characterization (inc : ℚ) (ki : ℤ) (hinc : inc = (ki : ℚ)) :
    ∀ (plies : List HalfMove) (i : Nat) (lastW lastB : Option ℚ),
      IsTenths lastW → IsTenths lastB →
      ∀ t, timeLoop inc lastW lastB plies i = some t ↔
        ∃ p, plies.get? i = some p ∧
          ∃ r l, clock_from_comment p.clkTotal = some r ∧
            lastClock p.mover (initLast p.mover lastW lastB) (plies.take i) = some l ∧
            t = max 0 (l + inc - r) := by
  intro plies
  induction plies with
  | nil =>
    intro i lastW lastB hW hB t
    simp [timeLoop]
  | cons p rest ih =>
    intro i lastW lastB hW hB t
    match i with
    | 0 =>
      rcases hrem : clock_from_comment p.clkTotal with _ | r
      · simp [timeLoop, hrem]
      · rcases hlast : initLast p.mover lastW lastB with _ | l
        · cases hpm : p.mover <;>
            simp_all [timeLoop, initLast, lastClock]
        · obtain ⟨kr, hkr⟩ := clock_from_comment_tenths _ r hrem
          have hl : ∃ k : ℤ, l = (k : ℚ) / 10 := by
            cases hpm : p.mover
            · exact hW l (by simpa [initLast, hpm] using hlast)
            · exact hB l (by simpa [initLast, hpm] using hlast)
          obtain ⟨kl, hkl⟩ := hl
          have hexact : round1 (max 0 (l + inc - r)) = max 0 (l + inc - r) := by
            have harith : l + inc - r = ((kl + 10 * ki - kr : ℤ) : ℚ) / 10 := by
              rw [hkl, hkr, hinc]
              push_cast
              ring
            rw [harith, max0_tenths, round1_tenths]
          have hloop : timeLoop inc lastW lastB (p :: rest) 0 =
              some (round1 (max 0 (l + inc - r))) := by
            cases hpm : p.mover
            · have hlw : lastW = some l := by simpa [initLast, hpm] using hlast
              simp [timeLoop, hrem, hlw, hpm]
            · have hlb : lastB = some l := by simpa [initLast, hpm] using hlast
              simp [timeLoop, hrem, hlb, hpm]
          rw [hloop, hexact]
          constructor
          · intro h
            exact ⟨p, rfl, r, l, hrem, hlast, (Option.some_inj.mp h).symm⟩
          · rintro ⟨q, hq, r', l', hr', hl', ht⟩
            obtain rfl : p = q := by simpa using hq
            rw [hrem] at hr'
            obtain rfl : r' = r := by simpa using hr'.symm
            have hl2 : initLast p.mover lastW lastB = some l' := by
              simpa [lastClock] using hl'
            rw [hlast] at hl2
            obtain rfl : l' = l := by simpa using hl2.symm
            rw [ht]
    | i' + 1 =>
      have hstep : timeLoop inc lastW lastB (p :: rest) (i' + 1) =
          timeLoop inc
            (match clock_from_comment p.clkTotal, p.mover with
              | some r, .white => some r
              | _, _ => lastW)
            (match clock_from_comment p.clkTotal, p.mover with
              | some r, .black => some r
              | _, _ => lastB) rest i' := rfl
      set lastW2 := (match clock_from_comment p.clkTotal, p.mover with
        | some r, .white => some r
        | _, _ => lastW) with hW2def
      set lastB2 := (match clock_from_comment p.clkTotal, p.mover with
        | some r, .black => some r
        | _, _ => lastB) with hB2def
      have hW2 : IsTenths lastW2 := by
        rw [hW2def]
        rcases hrem : clock_from_comment p.clkTotal with _ | r
        · cases p.mover <;> exact hW
        · cases hpm : p.mover
          · intro q hq
            exact clock_from_comment_tenths p.clkTotal q (by rw [hrem]; simpa using hq)
          · exact hW
      have hB2 : IsTenths lastB2 := by
        rw [hB2def]
        rcases hrem : clock_from_comment p.clkTotal with _ | r
        · cases p.mover <;> exact hB
        · cases hpm : p.mover
          · exact hB
          · intro q hq
            exact clock_from_comment_tenths p.clkTotal q (by rw [hrem]; simpa using hq)
      have hupd : ∀ m2 : Side, initLast m2 lastW2 lastB2 =
          (if p.mover = m2 ∧ (clock_from_comment p.clkTotal).isSome
            then clock_from_comment p.clkTotal else initLast m2 lastW lastB) := by
        intro m2
        rw [hW2def, hB2def]
        rcases hrem : clock_from_comment p.clkTotal with _ | r <;>
          cases hpm : p.mover <;> cases m2 <;> simp [initLast, hpm]
      rw [hstep, ih i' lastW2 lastB2 hW2 hB2 t]
      constructor
      · rintro ⟨q, hq, r, l, hr, hl, ht⟩
        refine ⟨q, by simpa using hq, r, l, hr, ?_, ht⟩
        rw [List.take_succ_cons, lastClock, ← hupd q.mover]
        exact hl
      · rintro ⟨q, hq, r, l, hr, hl, ht⟩
        refine ⟨q, by simpa using hq, r, l, hr, ?_, ht⟩
        rw [List.take_succ_cons, lastClock, ← hupd q.mover] at hl
        exact hl

/-- C9: for a `base+increment` time control, `extract_time_used` returns a
value exactly when the PGN parses, the mainline reaches the target ply, the
target ply's clock comment parses, and the mover's previous remaining clock
is known — and then the value is
`max 0 (previous_remaining + increment − current_remaining)` (the clamped
difference formula), hence never negative.  In every other case — a missing
or unparseable required clock comment, or a PGN that does not parse to the
target ply — it returns `none`. -/
theorem extract_time_used_characterization (game : Option (List HalfMove))
    (base inc : Nat) (ply : Nat) :
    (∀ t, extract_time_used game (some (base, inc)) ply = some t → 0 ≤ t) ∧
    (∀ t, extract_time_used game (some (base, inc)) ply = some t ↔
      ∃ plies p, game = some plies ∧ plies.get? ply = some p ∧
        ∃ r l, clock_from_comment p.clkTotal = some r ∧
          lastClock p.mover (some (base : ℚ)) (plies.take ply) = some l ∧
          t = max 0 (l + (inc : ℚ) - r)) := by
  have htenths : IsTenths (some ((base : ℚ))) := by
    intro q hq
    refine ⟨10 * base, ?_⟩
    obtain rfl : (base : ℚ) = q := by simpa using hq
    push_cast
    ring
  have hinit : ∀ m : Side,
      initLast m (some ((base : ℚ))) (some ((base : ℚ))) = some ((base : ℚ)) :=
    fun m => by cases m <;> rfl
  have hiff : ∀ t, extract_time_used game (some (base, inc)) ply = some t ↔
      ∃ plies p, game = some plies ∧ plies.get? ply = some p ∧
        ∃ r l, clock_from_comment p.clkTotal = some r ∧
          lastClock p.mover (some (base : ℚ)) (plies.take ply) = some l ∧
          t = max 0 (l + (inc : ℚ) - r) := by
    intro t
    cases game with
    | none => simp [extract_time_used]
    | some plies =>
      have h := timeLoop_characterization ((inc : ℚ)) ((inc : ℤ))
        (by push_cast; ring) plies ply (some ((base : ℚ))) (some ((base : ℚ)))
        htenths htenths t
      rw [show extract_time_used (some plies) (some (base, inc)) ply =
          timeLoop (inc : ℚ) (some ((base : ℚ))) (some ((base : ℚ))) plies ply
        from rfl]
      rw [h]
      constructor
      · rintro ⟨p, hp, r, l, hr, hl, ht⟩
        rw [hinit p.mover] at hl
        exact ⟨plies, p, rfl, hp, r, l, hr, hl, ht⟩
      · rintro ⟨plies2, p, hpl, hp, r, l, hr, hl, ht⟩
        obtain rfl : plies2 = plies := by simpa using hpl.symm
        refine ⟨p, hp, r, l, hr, ?_, ht⟩
        rw [hinit p.mover]
        exact hl
  refine ⟨?_, hiff⟩
  intro t h
  obtain ⟨_, _, _, _, _, _, _, _, ht⟩ := (hiff t).mp h
  rw [ht]
  exact le_max_left 0 _

/-- C9, witness: a 180+2 game where the target ply spent
`180 + 2 − 176 = 6` seconds. -/
theorem extract_time_used_characterization_witness : (0 : ℚ) ≤ 6 :=
  (extract_time_used_characterization
    (some [⟨.white, "f0", "e4", some 180⟩, ⟨.black, "f1", "e5", some 179⟩,
      ⟨.white, "f2", "Nf3", some 176⟩]) 180 2 2).1 6
    (by norm_num [extract_time_used, parsedTimeControl, timeLoop,
      clock_from_comment, round1, max_def])

/-- C7 counterexample: `detect_themes` applied to a malformed FEN raises (the
`chess.Board(fen)` call precedes the protected SAN parse), so it is not true
that `detect_themes` never raises for every input pair. -/
theorem detect_themes_malformed_fen_raises :
    detect_themes "certainly not a fen" "e4" =
      .error "expected w or b for turn part of fen" := by rfl

/-- C7 amended: for every FEN that parses to a board, `detect_themes` never
raises — it returns `.ok` for every SAN string, and returns the empty theme
list when the SAN fails to parse against the position.  (On a malformed FEN
the board construction itself raises, before the SAN parse.) -/
theorem detect_themes_total_on_valid_fen (fen san : String) (b : Board)
    (hb : fromFen fen = .ok b) :
    (detect_themes fen san = .ok (match parseSan b san with
      | .ok m => detectThemesCore b m
      | .error _ => ([] : List String))) ∧
    (∀ e, parseSan b san = .error e → detect_themes fen san = .ok []) := by
  constructor
  · cases hps : parseSan b san <;>
      simp [detect_themes, hb, hps, Bind.bind, Except.bind]
  · intro e he
    simp [detect_themes, hb, he, Bind.bind, Except.bind]

/-- C7 amended, witness: an empty valid board and an unparseable SAN. -/
theorem detect_themes_total_on_valid_fen_witness :
    detect_themes "8/8/8/8/8/8/8/8 w - - 0 1" "Zz" = .ok [] :=
  (detect_themes_total_on_valid_fen "8/8/8/8/8/8/8/8 w - - 0 1" "Zz"
    ⟨[], .white, false, false, false, false, none, 0, 1⟩ (by rfl)).2
    "invalid san" (by rfl)

/-- None of the pre-move tags is `knight_fork`. -/
theorem knight_fork_not_mem_preThemes (b : Board) (m : Move) :
    "knight_fork" ∉ preThemes b m := by
  unfold preThemes
  rcases hp : b.pieceAt m.fromSq with _ | p <;> split_ifs <;> simp_all

/-- The `knight_fork` tag appears in the theme list iff the knight-fork test
on the pushed board holds: no other block of `detect_themes` emits it. -/
theorem detectThemesCore_knight_fork_iff (b : Board) (m : Move) :
    "knight_fork" ∈ detectThemesCore b m ↔
      knightForkCond (b.push m) (b.push m).turn = true := by
  have hpre := knight_fork_not_mem_preThemes b m
  simp only [detectThemesCore]
  split_ifs <;> simp_all

/-- C8 amended: for every position and parsed move, the returned theme list
contains `knight_fork` iff, after the move, some knight of the side **not**
moving attacks at least two of the mover's pieces from `{queen, rook, king}`
— defence of the attacked pieces plays no role, and a knight move by the
mover landing a fork does not produce the tag. -/
theorem detect_themes_knight_fork_amended (fen san : String) (b : Board)
    (m : Move) (hb : fromFen fen = .ok b) (hm : parseSan b san = .ok m) :
    ∀ l, detect_themes fen san = .ok l →
      ("knight_fork" ∈ l ↔ knightForkCond (b.push m) (b.push m).turn = true) := by
  intro l hl
  have hd : detect_themes fen san = .ok (detectThemesCore b m) := by
    simp [detect_themes, hb, hm, Bind.bind, Except.bind]
  rw [hd] at hl
  obtain rfl : detectThemesCore b m = l := by simpa using hl
  exact detectThemesCore_knight_fork_iff b m

/-- C8 amended, witness: after White's `h3` on
`7k/8/8/5R2/3n4/8/4Q2P/7K w - - 0 1`, the black knight on d4 forks Qe2 and
Rf5, and the tag is present. -/
theorem detect_themes_knight_fork_amended_witness :
    "knight_fork" ∈ (["pawn_push", "knight_fork"] : List String) :=
  (detect_themes_knight_fork_amended "7k/8/8/5R2/3n4/8/4Q2P/7K w - - 0 1" "h3"
    boardOppFork ⟨15, 23, none⟩ (by decide) (by decide)
    ["pawn_push", "knight_fork"] (by decide)).mpr (by decide)

/-- C8 counterexample: on `7k/3q4/6r1/8/8/5N2/8/K7 w - - 0 1` the legal
knight move `Ne5` lands attacking both the black queen on d7 and the black
rook on g6, neither of which is defended — yet the returned theme set is
empty, so it does not include `knight_fork` (the source scans the
*opponent's* knights, not the moved one). -/
theorem detect_themes_knight_fork_counterexample :
    fromFen "7k/3q4/6r1/8/8/5N2/8/K7 w - - 0 1" = .ok boardMoverFork ∧
    parseSan boardMoverFork "Ne5" = .ok ⟨21, 36, none⟩ ∧
    (⟨21, 36, none⟩ : Move) ∈ boardMoverFork.legalMoves ∧
    boardMoverFork.pieceAt 21 = some ⟨.knight, .white⟩ ∧
    (boardMoverFork.push ⟨21, 36, none⟩).pieceAt 36 = some ⟨.knight, .white⟩ ∧
    51 ∈ (boardMoverFork.push ⟨21, 36, none⟩).attacks 36 ∧
    46 ∈ (boardMoverFork.push ⟨21, 36, none⟩).attacks 36 ∧
    (boardMoverFork.push ⟨21, 36, none⟩).pieceAt 51 = some ⟨.queen, .black⟩ ∧
    (boardMoverFork.push ⟨21, 36, none⟩).pieceAt 46 = some ⟨.rook, .black⟩ ∧
    (boardMoverFork.push ⟨21, 36, none⟩).attackersList .black 51 = [] ∧
    (boardMoverFork.push ⟨21, 36, none⟩).attackersList .black 46 = [] ∧
    detect_themes "7k/3q4/6r1/8/8/5N2/8/K7 w - - 0 1" "Ne5" = .ok [] ∧
    "knight_fork" ∉ ([] : List String) := by decide

end BlunderFixer
